import Mathlib

/-!
Verification development for the product-catalog program
(`gestao_produtos.py`).  The Python source is shallowly embedded:

* Python `str` values are embedded as `List Char`;
* Python `int` as `Int` (arbitrary precision, as in CPython);
* `decimal.Decimal` as the structure `Dec` below (sign, coefficient,
  exponent), with Python's to-scientific-string algorithm and the
  string-to-decimal conversion grammar modelled explicitly;
* Python exceptions as the inductive `PyError`; fallible operations
  return `Except PyError _` (or `Option _` for `dict.get`-style lookups);
* the insertion-ordered `dict` held by `ProductCollection` as an
  association list `List (Int × Produto)` whose reachable states have
  pairwise-distinct keys.

NaN/Infinity decimal literals, underscore digit grouping in numeric
literals and non-ASCII case mapping are outside the modelled fragment:
no product record produced or consumed by the program's serialization
uses them.
-/

namespace Gestao

/-- Python `str.strip` whitespace class, restricted to the ASCII
whitespace characters (space, tab, line feed, vertical tab, form feed,
carriage return). -/
def pySpace (c : Char) : Bool :=
  c = ' ' || c = '\t' || c = '\n' || c = '\x0b' || c = '\x0c' || c = '\r'

/-- Python `str.strip()`: drop leading and trailing whitespace. -/
def pyStrip (s : List Char) : List Char :=
  ((s.dropWhile pySpace).reverse.dropWhile pySpace).reverse

/-- Python `str.upper()` (ASCII fragment). -/
def pyUpper (s : List Char) : List Char :=
  s.map Char.toUpper

/-- Numeric value of a big-endian list of digit characters
(accumulating fold, as positional notation). -/
def digitsVal (s : List Char) : Nat :=
  s.foldl (fun a c => 10 * a + (c.toNat - 48)) 0

/-- Little-endian base-10 digits of a natural number, with explicit
fuel so that the kernel can evaluate it (`natDigitsF_eq` identifies it
with `Nat.digits 10`). -/
def natDigitsF : Nat → Nat → List Nat
  | 0, _ => []
  | f + 1, n => if n = 0 then [] else n % 10 :: natDigitsF f (n / 10)

/-- Decimal rendering of a natural number, as Python `str` produces it:
big-endian digit characters, `"0"` for zero. -/
def natRepr (n : Nat) : List Char :=
  if n = 0 then ['0'] else ((natDigitsF n n).reverse.map Nat.digitChar)

/-- Python `str(i)` for `i : int`: optional minus sign, then digits. -/
def pyStrInt (i : Int) : List Char :=
  if i < 0 then '-' :: natRepr i.natAbs else natRepr i.toNat

/-- Python `int(s)` on text: strip surrounding whitespace, optional
sign, then a non-empty run of decimal digits; anything else raises
`ValueError` (modelled as `none`). -/
def pyInt? (s : List Char) : Option Int :=
  match pyStrip s with
  | [] => none
  | c :: t =>
    if c = '-' then
      if t ≠ [] ∧ t.all Char.isDigit then some (-(digitsVal t : Int)) else none
    else if c = '+' then
      if t ≠ [] ∧ t.all Char.isDigit then some (digitsVal t : Int) else none
    else
      if (c :: t).all Char.isDigit then some (digitsVal (c :: t) : Int) else none

/-- `decimal.Decimal`: sign, coefficient (a natural number — string
conversion discards leading zeros of the coefficient) and exponent.
`⟨false, 15, -1⟩` is `Decimal('1.5')`, `⟨false, 150, -2⟩` is
`Decimal('1.50')`. -/
structure Dec where
  neg : Bool
  coeff : Nat
  exp : Int
deriving DecidableEq, Repr

/-- Numeric value of a decimal, used for order comparisons such as the
`preco < 0` check of the constructor. -/
def Dec.toRat (d : Dec) : ℚ :=
  (if d.neg then (-1 : ℚ) else 1) * (d.coeff : ℚ) * (10 : ℚ) ^ d.exp

/-- `d < 0` for a decimal compared with the integer zero, as
`Decimal.__lt__` decides it: the value is negative exactly when the
sign is set and the coefficient is nonzero (so `Decimal('-0') < 0` is
`False`).  `Dec.ltZero_iff_toRat` proves this equal to the value-level
comparison. -/
def Dec.ltZero (d : Dec) : Bool :=
  d.neg && d.coeff != 0

/-- Unsigned part of `str(Decimal)`: the to-scientific-string algorithm
of the decimal specification, as implemented by `Decimal.__str__`,
sign excluded. -/
def Dec.sciBody (d : Dec) : List Char :=
  let ds := natRepr d.coeff
  let n : Int := (ds.length : Int)
  let e := d.exp
  let a := e + n - 1
  if e ≤ 0 ∧ -6 ≤ a then
    if e = 0 then ds
    else if 0 < n + e then
      ds.take (n + e).toNat ++ '.' :: ds.drop (n + e).toNat
    else
      '0' :: '.' :: (List.replicate (-(n + e)).toNat '0' ++ ds)
  else
    (match ds with
     | [] => []
     | c :: rest => if rest = [] then [c] else c :: '.' :: rest)
      ++ 'E' :: (if a < 0 then '-' else '+') :: natRepr a.natAbs

/-- Python `str(Decimal)`: minus sign when negative, then the body. -/
def Dec.toSci (d : Dec) : List Char :=
  (if d.neg then ['-'] else []) ++ d.sciBody

/-- Mantissa part of string-to-decimal conversion: digits with an
optional decimal point, at least one digit in total; `e` is the
already-parsed exponent. -/
def pyDecMant (neg : Bool) (mant : List Char) (e : Int) : Option Dec :=
  match mant.splitOn '.' with
  | [ip] =>
      if ip ≠ [] ∧ ip.all Char.isDigit then some ⟨neg, digitsVal ip, e⟩ else none
  | [ip, fp] =>
      if ip ++ fp ≠ [] ∧ (ip ++ fp).all Char.isDigit then
        some ⟨neg, digitsVal (ip ++ fp), e - (fp.length : Int)⟩
      else none
  | _ => none

/-- Exponent part of string-to-decimal conversion: optional sign then a
non-empty run of digits. -/
def pyDecExp (s : List Char) : Option Int :=
  match s with
  | [] => none
  | c :: t =>
    if c = '-' then
      if t ≠ [] ∧ t.all Char.isDigit then some (-(digitsVal t : Int)) else none
    else if c = '+' then
      if t ≠ [] ∧ t.all Char.isDigit then some (digitsVal t : Int) else none
    else
      if (c :: t).all Char.isDigit then some (digitsVal (c :: t) : Int) else none

/-- Optional leading sign of a numeric literal: the sign flag and the
remainder of the text. -/
def pySign (s : List Char) : Bool × List Char :=
  match s with
  | [] => (false, [])
  | c :: t =>
    if c = '-' then (true, t)
    else if c = '+' then (false, t)
    else (false, c :: t)

/-- The exponent marker of a decimal literal. -/
def isExpChar (c : Char) : Bool :=
  c = 'e' || c = 'E'

/-- Signless part of string-to-decimal conversion: mantissa with an
optional `E`/`e`-separated exponent. -/
def pyDecBody (neg : Bool) (t : List Char) : Option Dec :=
  match t.splitOnP isExpChar with
  | [mant] => pyDecMant neg mant 0
  | [mant, ex] =>
      match pyDecExp ex with
      | some e => pyDecMant neg mant e
      | none => none
  | _ => none

/-- `Decimal(s)` for text `s` (finite-number grammar): strip surrounding
whitespace, optional sign, mantissa, optional `E`/`e` exponent.
Conversion-syntax failure raises `decimal.InvalidOperation`, modelled
as `none`. -/
def pyDec? (s : List Char) : Option Dec :=
  let st := pySign (pyStrip s)
  pyDecBody st.1 st.2

/-- Python exceptions raised by the embedded code.  The repository's own
exception classes carry their message text; interpreter-raised builtins
(`ValueError` from `int()`, `decimal.InvalidOperation` from `Decimal()`,
`IndexError` from list indexing) are bare.  In Python,
`InvalidProdAttribute` subclasses `ValueError`; `DuplicateValue` and
`FileNotFound` subclass `Exception`; `decimal.InvalidOperation`
subclasses `ArithmeticError`. -/
inductive PyError where
  | invalidProdAttribute (msg : List Char)
  | duplicateValue (msg : List Char)
  | fileNotFound (msg : List Char)
  | valueError
  | invalidOperation
  | indexError
deriving DecidableEq, Repr

instance {ε σ : Type} [DecidableEq ε] [DecidableEq σ] : DecidableEq (Except ε σ) :=
  fun a b =>
    match a, b with
    | .error x, .error y =>
      if h : x = y then .isTrue (h ▸ rfl)
      else .isFalse (fun hc => h (Except.error.inj hc))
    | .error _, .ok _ => .isFalse (fun hc => Except.noConfusion hc)
    | .ok _, .error _ => .isFalse (fun hc => Except.noConfusion hc)
    | .ok x, .ok y =>
      if h : x = y then .isTrue (h ▸ rfl)
      else .isFalse (fun hc => h (Except.ok.inj hc))

/-- Errors raised while a record's text is being broken into typed
fields, before attribute validation runs: these are the parsing-kind
failures (list indexing, `int()`, `Decimal()`), as opposed to the
validation-kind `InvalidProdAttribute`. -/
def PyError.isParseKind : PyError → Bool
  | .valueError => true
  | .invalidOperation => true
  | .indexError => true
  | _ => false

/-- Exceptions caught by an `except ValueError` handler: the builtin
`ValueError` and its repository subclass `InvalidProdAttribute`. -/
def PyError.isValueErrorFamily : PyError → Bool
  | .invalidProdAttribute _ => true
  | .valueError => true
  | _ => false

/-- `PRODUCT_TYPES`: the fixed category table. -/
def PRODUCT_TYPES : List (List Char × List Char) :=
  [("AL".toList, "Alimentação".toList),
   ("DL".toList, "Detergente p/ Loiça".toList),
   ("FRL".toList, "Frutas e Legumes".toList)]

/-- The `Produto` record: the attributes set by a successful
`Produto.__init__`. -/
structure Produto where
  id : Int
  nome : List Char
  tipo : List Char
  quantidade : Int
  preco : Dec
deriving DecidableEq, Repr

/-- `Produto.__init__`: the validated constructor.  Checks run in
source order; the first failing check determines the raised
`InvalidProdAttribute`.  On success the stored `tipo` is uppercased. -/
def Produto.init (id_ : Int) (nome tipo : List Char) (quantidade : Int)
    (preco : Dec) : Except PyError Produto :=
  if id_ < 0 ∨ (pyStrInt id_).length ≠ 5 then
    .error (.invalidProdAttribute
      ("id_=".toList ++ pyStrInt id_ ++ " inválido (deve ser > 0 e ter 5 dígitos)".toList))
  else if nome = [] then
    .error (.invalidProdAttribute ("Nome vazio".toList))
  else if (PRODUCT_TYPES.lookup (pyUpper tipo)).isNone then
    .error (.invalidProdAttribute
      ("Tipo de produto (".toList ++ tipo ++ ") desconhecido".toList))
  else if quantidade < 0 then
    .error (.invalidProdAttribute ("Quantidade deve ser >= 0".toList))
  else if preco.ltZero then
    .error (.invalidProdAttribute ("Preço deve ser >= 0".toList))
  else
    .ok ⟨id_, nome, pyUpper tipo, quantidade, preco⟩

/-- `attrs[i]` on a Python list: `IndexError` when out of range. -/
def getIdx (l : List (List Char)) (i : Nat) : Except PyError (List Char) :=
  match l.get? i with
  | some x => .ok x
  | none => .error .indexError

/-- `int(s)` as an exception-raising operation. -/
def pyIntE (s : List Char) : Except PyError Int :=
  match pyInt? s with
  | some n => .ok n
  | none => .error .valueError

/-- `dec(s)` (`decimal.Decimal(s)`) as an exception-raising operation. -/
def pyDecE (s : List Char) : Except PyError Dec :=
  match pyDec? s with
  | some d => .ok d
  | none => .error .invalidOperation

/-- `Produto.from_csv`: split on `','`, convert/trim the five leading
fields in the argument order of the `cls(...)` call, delegate to the
constructor.  Fields beyond the fifth are never read. -/
def Produto.from_csv (txt : List Char) : Except PyError Produto := do
  let attrs := txt.splitOn ','
  let i ← pyIntE (← getIdx attrs 0)
  let nome := pyStrip (← getIdx attrs 1)
  let tipo := pyStrip (← getIdx attrs 2)
  let q ← pyIntE (← getIdx attrs 3)
  let p ← pyDecE (← getIdx attrs 4)
  Produto.init i nome tipo q p

/-- `Produto.string`: the five fields joined by commas (the f-string
of the source). -/
def Produto.string (p : Produto) : List Char :=
  List.intercalate [',']
    [pyStrInt p.id, p.nome, p.tipo, pyStrInt p.quantidade, p.preco.toSci]

/-- `Produto.nome_tipo`: `PRODUCT_TYPES[self.tipo]`; `none` models the
`KeyError` a missing key would raise. -/
def Produto.nome_tipo (p : Produto) : Option (List Char) :=
  PRODUCT_TYPES.lookup p.tipo

/-- `ProductCollection` state: the insertion-ordered `_prods` dict as
an association list, plus the `list` string accumulator that `grava`
mutates. -/
structure ProductCollection where
  prods : List (Int × Produto)
  list : List Char
deriving DecidableEq, Repr

namespace ProductCollection

/-- `ProductCollection.__init__`. -/
def empty : ProductCollection := ⟨[], []⟩

/-- `self._prods[k] = v` on a Python dict: replace in place when the
key is present, otherwise append at the end (insertion order). -/
def dictInsert (k : Int) (v : Produto) (l : List (Int × Produto)) :
    List (Int × Produto) :=
  if l.any (fun e => e.1 = k) then
    l.map (fun e => if e.1 = k then (k, v) else e)
  else l ++ [(k, v)]

/-- `ProductCollection.append`: reject a present key with
`DuplicateValue`, otherwise store under `prod.id`. -/
def append (pc : ProductCollection) (prod : Produto) :
    Except PyError ProductCollection :=
  if (pc.prods.lookup prod.id).isSome then
    .error (.duplicateValue
      ("Já existe produto com id ".toList ++ pyStrInt prod.id ++ " na colecção".toList))
  else
    .ok ⟨dictInsert prod.id prod pc.prods, pc.list⟩

/-- `ProductCollection.pesquisa_por_id`: `dict.get`, absence is `none`. -/
def pesquisa_por_id (pc : ProductCollection) (id_ : Int) : Option Produto :=
  pc.prods.lookup id_

/-- `ProductCollection.pesquisa`: fold over the stored values in order,
appending each member satisfying the criterion to a fresh collection. -/
def pesquisa (pc : ProductCollection) (criterio : Produto → Bool) :
    Except PyError ProductCollection :=
  pc.prods.foldlM
    (fun acc e => if criterio e.2 then acc.append e.2 else pure acc)
    ProductCollection.empty

/-- `del d[k]` on a dict with key `k` present: remove that key,
preserving the order of the rest. -/
def dictDelete (k : Int) (l : List (Int × Produto)) : List (Int × Produto) :=
  l.filter (fun e => e.1 ≠ k)

/-- `ProductCollection.eliminar`: the parameter is annotated `Produto`
in the source but is used directly as the dict key, and every caller
passes the integer id; it is therefore embedded with the key type.
Absent keys raise the repository's `FileNotFound`. -/
def eliminar (pc : ProductCollection) (id_ : Int) :
    Except PyError ProductCollection :=
  if (pc.prods.lookup id_).isSome then
    .ok ⟨dictDelete id_ pc.prods, pc.list⟩
  else
    .error (.fileNotFound
      ("O produto com id ".toList ++ pyStrInt id_ ++ " não existe na colecção".toList))

/-- `ProductCollection.grava`: append every member's record plus a line
feed onto the persistent `self.list` accumulator and return it. -/
def grava (pc : ProductCollection) : List Char × ProductCollection :=
  let newList :=
    pc.prods.foldl (fun acc e => acc ++ e.2.string ++ ['\n']) pc.list
  (newList, ⟨pc.prods, newList⟩)

end ProductCollection

/-- The collection states reachable through the public operations:
fresh construction and the success paths of `append`, `eliminar` and
`pesquisa`. -/
inductive Reachable : ProductCollection → Prop where
  | empty : Reachable ProductCollection.empty
  | append {pc pc' p} : Reachable pc → pc.append p = .ok pc' → Reachable pc'
  | eliminar {pc pc' id_} : Reachable pc → pc.eliminar id_ = .ok pc' → Reachable pc'
  | pesquisa {pc pc' crit} : Reachable pc → pc.pesquisa crit = .ok pc' → Reachable pc'

/-! ### Digit and string helper lemmas -/

theorem natDigitsF_eq {f n : Nat} (h : n ≤ f) : natDigitsF f n = Nat.digits 10 n := by
  induction f generalizing n with
  | zero =>
    interval_cases n
    simp [natDigitsF]
  | succ f ih =>
    unfold natDigitsF
    split
    · next h0 => rw [h0, Nat.digits_zero]
    · next h0 =>
      rw [ih (by omega : n / 10 ≤ f),
        Nat.digits_def' (by norm_num : 1 < 10) (Nat.pos_of_ne_zero h0)]

theorem natRepr_eq (n : Nat) :
    natRepr n = if n = 0 then ['0'] else ((Nat.digits 10 n).reverse.map Nat.digitChar) := by
  unfold natRepr
  rw [natDigitsF_eq le_rfl]

theorem digitChar_isDigit : ∀ d, d < 10 → (Nat.digitChar d).isDigit = true := by decide

theorem digitChar_toNat : ∀ d, d < 10 → (Nat.digitChar d).toNat - 48 = d := by decide

theorem natRepr_ne_nil (n : Nat) : natRepr n ≠ [] := by
  rw [natRepr_eq]
  split
  · simp
  · next h =>
    simp only [ne_eq, List.map_eq_nil_iff, List.reverse_eq_nil_iff]
    exact Nat.digits_ne_nil_iff_ne_zero.mpr h

theorem natRepr_isDigit {n : Nat} : ∀ c ∈ natRepr n, c.isDigit = true := by
  intro c hc
  rw [natRepr_eq] at hc
  split at hc
  · rw [List.mem_singleton] at hc
    subst hc
    decide
  · simp only [List.mem_map, List.mem_reverse] at hc
    obtain ⟨d, hd, rfl⟩ := hc
    exact digitChar_isDigit d (Nat.digits_lt_base (by norm_num) hd)

theorem foldl_digitChars (L : List Nat) (h : ∀ d ∈ L, d < 10) (a : Nat) :
    (L.reverse.map Nat.digitChar).foldl (fun x c => 10 * x + (c.toNat - 48)) a
      = a * 10 ^ L.length + Nat.ofDigits 10 L := by
  induction L generalizing a with
  | nil => simp
  | cons d L ih =>
    simp only [List.reverse_cons, List.map_append, List.foldl_append, List.map_cons,
      List.map_nil, List.foldl_cons, List.foldl_nil]
    rw [ih (fun x hx => h x (List.mem_cons_of_mem _ hx)),
      digitChar_toNat d (h d (List.mem_cons_self _ _)), Nat.ofDigits_cons,
      List.length_cons, pow_succ]
    ring

theorem digitsVal_natRepr (n : Nat) : digitsVal (natRepr n) = n := by
  rw [natRepr_eq]
  unfold digitsVal
  split
  · next h => subst h; rfl
  · rw [foldl_digitChars _ (fun d hd => Nat.digits_lt_base (by norm_num) hd) 0]
    simp [Nat.ofDigits_digits]

theorem natRepr_length_eq_five {n : Nat} :
    (natRepr n).length = 5 ↔ 10000 ≤ n ∧ n ≤ 99999 := by
  rw [natRepr_eq]
  split
  · next h => subst h; simp
  · next h =>
    rw [List.length_map, List.length_reverse, Nat.digits_len 10 n (by norm_num) h]
    constructor
    · intro hl
      have h4 : Nat.log 10 n = 4 := by omega
      have h1 := Nat.pow_log_le_self 10 h
      have h2 := Nat.lt_pow_succ_log_self (by norm_num : 1 < 10) n
      rw [h4] at h1 h2
      norm_num at h1 h2
      omega
    · intro hb
      have h4 : Nat.log 10 n = 4 :=
        Nat.log_eq_of_pow_le_of_lt_pow (by norm_num; omega) (by norm_num; omega)
      omega

theorem dropWhile_eq_self_of {p : Char → Bool} {l : List Char}
    (h : ∀ c ∈ l, p c = false) : l.dropWhile p = l := by
  cases l with
  | nil => rfl
  | cons c t =>
    rw [List.dropWhile_cons, if_neg]
    simp [h c (List.mem_cons_self c t)]

theorem pyStrip_eq_self {l : List Char} (h : ∀ c ∈ l, pySpace c = false) :
    pyStrip l = l := by
  unfold pyStrip
  rw [dropWhile_eq_self_of h,
    dropWhile_eq_self_of (fun c hc => h c (List.mem_reverse.mp hc)),
    List.reverse_reverse]

theorem isDigit_ne {c : Char} (h : c.isDigit = true) (x : Char)
    (hx : x.isDigit = false) : c ≠ x := by
  intro he
  subst he
  rw [h] at hx
  cases hx

theorem isDigit_not_space {c : Char} (h : c.isDigit = true) : pySpace c = false := by
  have h1 := isDigit_ne h ' ' (by decide)
  have h2 := isDigit_ne h '\t' (by decide)
  have h3 := isDigit_ne h '\n' (by decide)
  have h4 := isDigit_ne h '\x0b' (by decide)
  have h5 := isDigit_ne h '\x0c' (by decide)
  have h6 := isDigit_ne h '\r' (by decide)
  simp [pySpace, h1, h2, h3, h4, h5, h6]

theorem pyInt?_natRepr (n : Nat) : pyInt? (natRepr n) = some (n : Int) := by
  have hd := @natRepr_isDigit n
  have hstrip : pyStrip (natRepr n) = natRepr n :=
    pyStrip_eq_self (fun c hc => isDigit_not_space (hd c hc))
  unfold pyInt?
  rw [hstrip]
  split
  · next hnr => exact absurd hnr (natRepr_ne_nil n)
  · next c t hnr =>
    have hc : c.isDigit = true := hd c (by rw [hnr]; exact List.mem_cons_self c t)
    rw [if_neg (isDigit_ne hc '-' (by decide)), if_neg (isDigit_ne hc '+' (by decide)),
      if_pos]
    · rw [← hnr, digitsVal_natRepr]
    · rw [List.all_eq_true]
      intro x hx
      exact hd x (by rw [hnr]; exact hx)

theorem pyStrInt_ofNat (n : Nat) : pyStrInt (n : Int) = natRepr n := by
  unfold pyStrInt
  rw [if_neg (by omega : ¬(n : Int) < 0)]
  simp

theorem pyInt?_pyStrInt {i : Int} (h : 0 ≤ i) : pyInt? (pyStrInt i) = some i := by
  unfold pyStrInt
  rw [if_neg (not_lt.mpr h), pyInt?_natRepr]
  congr 1
  omega

/-- The sign-and-coefficient test used for `preco < 0` agrees with the
value-level comparison of the decimal against zero. -/
theorem Dec.ltZero_iff_toRat (d : Dec) : d.ltZero = true ↔ d.toRat < 0 := by
  have hpow : (0 : ℚ) < (10 : ℚ) ^ d.exp := zpow_pos (by norm_num) _
  unfold Dec.ltZero Dec.toRat
  cases hn : d.neg
  · rw [if_neg (by simp : ¬(false = true))]
    exact iff_of_false (by simp) (not_lt.mpr (by positivity))
  · rw [if_pos (rfl : true = true)]
    simp only [Bool.true_and, bne_iff_ne, ne_eq]
    constructor
    · intro hc
      have h0 : (0 : ℚ) < (d.coeff : ℚ) := by
        exact_mod_cast Nat.pos_of_ne_zero hc
      nlinarith
    · intro hc
      intro h0
      rw [h0] at hc
      norm_num at hc

/-! ### Character-class helpers for the serialized forms -/

theorem digit_not_expChar {c : Char} (h : c.isDigit = true) : ¬(isExpChar c = true) := by
  simp only [isExpChar, Bool.or_eq_true, decide_eq_true_eq]
  rintro (rfl | rfl) <;> simp at h

theorem digit_ne_dot {c : Char} (h : c.isDigit = true) : ¬((c == '.') = true) := by
  simp only [beq_iff_eq]
  exact isDigit_ne h '.' (by decide)

theorem digit_ne_comma {c : Char} (h : c.isDigit = true) : ¬((c == ',') = true) := by
  simp only [beq_iff_eq]
  exact isDigit_ne h ',' (by decide)

/-- Every character of the unsigned scientific form is a digit or one of
`.`, `E`, `-`, `+`. -/
theorem sciBody_chars {d : Dec} : ∀ c ∈ d.sciBody,
    c.isDigit = true ∨ c = '.' ∨ c = 'E' ∨ c = '-' ∨ c = '+' := by
  intro c hc
  have hdig := @natRepr_isDigit d.coeff
  simp only [Dec.sciBody] at hc
  split at hc
  · split at hc
    · exact Or.inl (hdig c hc)
    · split at hc
      · rcases List.mem_append.mp hc with h1 | h2
        · exact Or.inl (hdig c (List.take_subset _ _ h1))
        · rcases List.mem_cons.mp h2 with rfl | h3
          · exact Or.inr (Or.inl rfl)
          · exact Or.inl (hdig c (List.drop_subset _ _ h3))
      · rcases List.mem_cons.mp hc with rfl | h2
        · exact Or.inl (by decide)
        rcases List.mem_cons.mp h2 with rfl | h3
        · exact Or.inr (Or.inl rfl)
        rcases List.mem_append.mp h3 with h4 | h5
        · exact Or.inl (by rw [List.eq_of_mem_replicate h4]; decide)
        · exact Or.inl (hdig c h5)
  · rcases List.mem_append.mp hc with h1 | h2
    · split at h1
      · cases h1
      · next c0 rest heq =>
        split at h1
        · rw [List.mem_singleton] at h1
          subst h1
          exact Or.inl (hdig c (by rw [heq]; exact List.mem_cons_self _ _))
        · rcases List.mem_cons.mp h1 with rfl | h3
          · exact Or.inl (hdig c (by rw [heq]; exact List.mem_cons_self _ _))
          rcases List.mem_cons.mp h3 with rfl | h4
          · exact Or.inr (Or.inl rfl)
          · exact Or.inl (hdig c (by rw [heq]; exact List.mem_cons_of_mem _ h4))
    · rcases List.mem_cons.mp h2 with rfl | h3
      · exact Or.inr (Or.inr (Or.inl rfl))
      rcases List.mem_cons.mp h3 with h4 | h5
      · split at h4
        · exact Or.inr (Or.inr (Or.inr (Or.inl h4)))
        · exact Or.inr (Or.inr (Or.inr (Or.inr h4)))
      · exact Or.inl (natRepr_isDigit c h5)

theorem toSci_chars {d : Dec} : ∀ c ∈ d.toSci,
    c.isDigit = true ∨ c = '.' ∨ c = 'E' ∨ c = '-' ∨ c = '+' := by
  intro c hc
  rcases List.mem_append.mp hc with h1 | h2
  · split at h1
    · rw [List.mem_singleton] at h1
      exact Or.inr (Or.inr (Or.inr (Or.inl h1)))
    · cases h1
  · exact sciBody_chars c h2

theorem toSci_not_space {d : Dec} : ∀ c ∈ d.toSci, pySpace c = false := by
  intro c hc
  rcases toSci_chars c hc with h | rfl | rfl | rfl | rfl
  · exact isDigit_not_space h
  all_goals decide

theorem toSci_not_comma {d : Dec} : ',' ∉ d.toSci := by
  intro hc
  rcases toSci_chars ',' hc with h | h | h | h | h <;> simp at h

/-! ### Computation lemmas for the decimal parser -/

theorem pyDecMant_eq_one {neg : Bool} {mant ip : List Char} {e : Int}
    (h : mant.splitOn '.' = [ip]) :
    pyDecMant neg mant e =
      if ip ≠ [] ∧ ip.all Char.isDigit then some ⟨neg, digitsVal ip, e⟩ else none := by
  unfold pyDecMant
  rw [h]

theorem pyDecMant_eq_two {neg : Bool} {mant ip fp : List Char} {e : Int}
    (h : mant.splitOn '.' = [ip, fp]) :
    pyDecMant neg mant e =
      if ip ++ fp ≠ [] ∧ (ip ++ fp).all Char.isDigit then
        some ⟨neg, digitsVal (ip ++ fp), e - (fp.length : Int)⟩
      else none := by
  unfold pyDecMant
  rw [h]

theorem pyDecBody_eq_one {neg : Bool} {t mant : List Char}
    (h : t.splitOnP isExpChar = [mant]) :
    pyDecBody neg t = pyDecMant neg mant 0 := by
  unfold pyDecBody
  rw [h]

theorem pyDecBody_eq_two {neg : Bool} {t mant ex : List Char}
    (h : t.splitOnP isExpChar = [mant, ex]) :
    pyDecBody neg t =
      match pyDecExp ex with
      | some e => pyDecMant neg mant e
      | none => none := by
  unfold pyDecBody
  rw [h]

theorem splitOn_dot_digits {l : List Char} (h : ∀ c ∈ l, c.isDigit = true) :
    l.splitOn '.' = [l] :=
  List.splitOnP_eq_single _ _ (fun c hc => digit_ne_dot (h c hc))

theorem splitOn_dot_append {xs ys : List Char}
    (hx : ∀ c ∈ xs, c.isDigit = true) (hy : ∀ c ∈ ys, c.isDigit = true) :
    (xs ++ '.' :: ys).splitOn '.' = [xs, ys] := by
  unfold List.splitOn
  rw [List.splitOnP_first _ _ (fun c hc => digit_ne_dot (hx c hc)) '.'
    (by simp), List.splitOnP_eq_single _ _ (fun c hc => digit_ne_dot (hy c hc))]

theorem digitsVal_cons_zero (l : List Char) : digitsVal ('0' :: l) = digitsVal l := rfl

theorem digitsVal_zeros (m : Nat) (l : List Char) :
    digitsVal (List.replicate m '0' ++ l) = digitsVal l := by
  induction m with
  | zero => rfl
  | succ m ih => rw [List.replicate_succ, List.cons_append, digitsVal_cons_zero, ih]

theorem pyDecExp_neg (t : List Char) :
    pyDecExp ('-' :: t) =
      if t ≠ [] ∧ t.all Char.isDigit then some (-(digitsVal t : Int)) else none := rfl

theorem pyDecExp_plus (t : List Char) :
    pyDecExp ('+' :: t) =
      if t ≠ [] ∧ t.all Char.isDigit then some (digitsVal t : Int) else none := rfl

/-- The exponent suffix emitted by `toSci` parses back to its value. -/
theorem pyDecExp_sign_repr (a : Int) :
    pyDecExp ((if a < 0 then '-' else '+') :: natRepr a.natAbs) = some a := by
  have hne := natRepr_ne_nil a.natAbs
  have hall : (natRepr a.natAbs).all Char.isDigit = true :=
    List.all_eq_true.mpr (fun c hc => natRepr_isDigit c hc)
  have hval : (digitsVal (natRepr a.natAbs) : Int) = (a.natAbs : Int) := by
    rw [digitsVal_natRepr]
  split
  · next ha =>
    rw [pyDecExp_neg, if_pos ⟨hne, hall⟩, hval]
    congr 1
    omega
  · next ha =>
    rw [pyDecExp_plus, if_pos ⟨hne, hall⟩, hval]
    congr 1
    omega

/-! ### Round-trip of the decimal serialization -/

theorem pySign_neg_cons (t : List Char) : pySign ('-' :: t) = (true, t) := rfl

theorem pySign_digit {c : Char} (h : c.isDigit = true) (t : List Char) :
    pySign (c :: t) = (false, c :: t) := by
  show (if c = '-' then (true, t)
        else if c = '+' then (false, t) else (false, c :: t)) = (false, c :: t)
  rw [if_neg (isDigit_ne h '-' (by decide)), if_neg (isDigit_ne h '+' (by decide))]

/-- The unsigned scientific form starts with a digit. -/
theorem sciBody_cons (d : Dec) :
    ∃ c t, d.sciBody = c :: t ∧ c.isDigit = true := by
  have hdig := @natRepr_isDigit d.coeff
  have hne := natRepr_ne_nil d.coeff
  obtain ⟨c0, rest, hds⟩ : ∃ c0 rest, natRepr d.coeff = c0 :: rest := by
    cases h : natRepr d.coeff with
    | nil => exact absurd h hne
    | cons a b => exact ⟨a, b, rfl⟩
  have hc0 : c0.isDigit = true := hdig c0 (by rw [hds]; exact List.mem_cons_self _ _)
  simp only [Dec.sciBody]
  rw [hds]
  split
  · split
    · exact ⟨c0, rest, rfl, hc0⟩
    · split
      · next h3 =>
        obtain ⟨m, hm⟩ : ∃ m, (((c0 :: rest).length : Int) + d.exp).toNat = m + 1 :=
          ⟨(((c0 :: rest).length : Int) + d.exp).toNat - 1, by omega⟩
        rw [hm, List.take_succ_cons, List.cons_append]
        exact ⟨c0, _, rfl, hc0⟩
      · exact ⟨'0', _, rfl, by decide⟩
  · dsimp only
    split
    · exact ⟨c0, _, rfl, hc0⟩
    · exact ⟨c0, _, rfl, hc0⟩

/-- Parsing the unsigned scientific form of a decimal recovers its
coefficient and exponent (for either requested sign). -/
theorem pyDecBody_sciBody (neg : Bool) (d : Dec) :
    pyDecBody neg d.sciBody = some ⟨neg, d.coeff, d.exp⟩ := by
  obtain ⟨nd, coeff, e⟩ := d
  have hdig := @natRepr_isDigit coeff
  have hne := natRepr_ne_nil coeff
  have hall : (natRepr coeff).all Char.isDigit = true := List.all_eq_true.mpr hdig
  simp only [Dec.sciBody]
  dsimp only
  split
  · next h1 =>
    split
    · next h2 =>
      rw [pyDecBody_eq_one
          (List.splitOnP_eq_single _ _ (fun c hc => digit_not_expChar (hdig c hc))),
        pyDecMant_eq_one (splitOn_dot_digits hdig), if_pos ⟨hne, hall⟩,
        digitsVal_natRepr, h2]
    · next h2 =>
      split
      · next h3 =>
        have htake : ∀ c ∈ (natRepr coeff).take
            ((((natRepr coeff).length : Int) + e).toNat), c.isDigit = true :=
          fun c hc => hdig c (List.take_subset _ _ hc)
        have hdrop : ∀ c ∈ (natRepr coeff).drop
            ((((natRepr coeff).length : Int) + e).toNat), c.isDigit = true :=
          fun c hc => hdig c (List.drop_subset _ _ hc)
        have hnoE : ∀ c ∈ (natRepr coeff).take ((((natRepr coeff).length : Int) + e).toNat)
            ++ '.' :: (natRepr coeff).drop ((((natRepr coeff).length : Int) + e).toNat),
            ¬(isExpChar c = true) := by
          intro c hc
          rcases List.mem_append.mp hc with h4 | h5
          · exact digit_not_expChar (htake c h4)
          rcases List.mem_cons.mp h5 with rfl | h6
          · decide
          · exact digit_not_expChar (hdrop c h6)
        rw [pyDecBody_eq_one (List.splitOnP_eq_single _ _ hnoE),
          pyDecMant_eq_two (splitOn_dot_append htake hdrop), List.take_append_drop,
          if_pos ⟨hne, hall⟩, digitsVal_natRepr, List.length_drop]
        simp only [Option.some.injEq, Dec.mk.injEq]
        exact ⟨trivial, trivial, by omega⟩
      · next h3 =>
        have hz : ∀ c ∈ List.replicate ((-(((natRepr coeff).length : Int) + e)).toNat) '0'
            ++ natRepr coeff, c.isDigit = true := by
          intro c hc
          rcases List.mem_append.mp hc with h4 | h5
          · rw [List.eq_of_mem_replicate h4]; decide
          · exact hdig c h5
        have hnoE : ∀ c ∈ '0' :: '.' ::
            (List.replicate ((-(((natRepr coeff).length : Int) + e)).toNat) '0'
              ++ natRepr coeff), ¬(isExpChar c = true) := by
          intro c hc
          rcases List.mem_cons.mp hc with rfl | h4
          · decide
          rcases List.mem_cons.mp h4 with rfl | h5
          · decide
          · exact digit_not_expChar (hz c h5)
        have hsp : ('0' :: '.' ::
            (List.replicate ((-(((natRepr coeff).length : Int) + e)).toNat) '0'
              ++ natRepr coeff)).splitOn '.'
            = [['0'], List.replicate ((-(((natRepr coeff).length : Int) + e)).toNat) '0'
                ++ natRepr coeff] := by
          rw [← List.singleton_append]
          exact splitOn_dot_append (by intro c hc; rw [List.mem_singleton] at hc
                                       subst hc; decide) hz
        rw [pyDecBody_eq_one (List.splitOnP_eq_single _ _ hnoE),
          pyDecMant_eq_two hsp, if_pos ⟨by simp, List.all_eq_true.mpr (by
            intro x hx
            simp only [List.singleton_append, List.mem_cons] at hx
            rcases hx with rfl | hx
            · decide
            · exact hz x hx)⟩]
        rw [List.singleton_append, digitsVal_cons_zero, digitsVal_zeros,
          digitsVal_natRepr]
        simp only [Option.some.injEq, Dec.mk.injEq, List.length_append,
          List.length_replicate]
        refine ⟨trivial, trivial, ?_⟩
        have hlen : (natRepr coeff).length ≠ 0 := fun h => hne (List.length_eq_zero.mp h)
        omega
  · next h1 =>
    obtain ⟨c0, rest, hds⟩ : ∃ c0 rest, natRepr coeff = c0 :: rest := by
      cases h : natRepr coeff with
      | nil => exact absurd h hne
      | cons a b => exact ⟨a, b, rfl⟩
    have hc0 : c0.isDigit = true := hdig c0 (by rw [hds]; exact List.mem_cons_self _ _)
    have hrest : ∀ c ∈ rest, c.isDigit = true :=
      fun c hc => hdig c (by rw [hds]; exact List.mem_cons_of_mem _ hc)
    rw [hds]
    dsimp only
    set A := e + ((c0 :: rest).length : Int) - 1 with hA
    have hsgn : ¬(isExpChar (if A < 0 then '-' else '+') = true) := by split <;> decide
    have hexpall : ∀ x ∈ (if A < 0 then '-' else '+') :: natRepr A.natAbs,
        ¬(isExpChar x = true) := by
      intro x hx
      rcases List.mem_cons.mp hx with rfl | hx2
      · exact hsgn
      · exact digit_not_expChar (natRepr_isDigit x hx2)
    split
    · next h4 =>
      subst h4
      have hsplit : ([c0] ++ 'E' :: (if A < 0 then '-' else '+') :: natRepr A.natAbs
          ).splitOnP isExpChar
          = [[c0], (if A < 0 then '-' else '+') :: natRepr A.natAbs] := by
        rw [List.splitOnP_first _ _ (by
              intro x hx
              rw [List.mem_singleton] at hx
              subst hx
              exact digit_not_expChar hc0) 'E' (by decide),
          List.splitOnP_eq_single _ _ hexpall]
      rw [pyDecBody_eq_two hsplit, pyDecExp_sign_repr]
      show pyDecMant neg [c0] A = some ⟨neg, coeff, e⟩
      rw [pyDecMant_eq_one (splitOn_dot_digits (by
            intro c hc
            rw [List.mem_singleton] at hc
            subst hc
            exact hc0)),
        if_pos ⟨by simp, by simp [hc0]⟩, ← hds, digitsVal_natRepr]
      simp only [Option.some.injEq, Dec.mk.injEq]
      refine ⟨trivial, trivial, ?_⟩
      simp only [List.length_cons, List.length_nil] at hA
      omega
    · next h4 =>
      have hsplit : ((c0 :: '.' :: rest) ++ 'E' ::
          (if A < 0 then '-' else '+') :: natRepr A.natAbs).splitOnP isExpChar
          = [c0 :: '.' :: rest, (if A < 0 then '-' else '+') :: natRepr A.natAbs] := by
        rw [List.splitOnP_first _ _ (by
              intro x hx
              rcases List.mem_cons.mp hx with rfl | hx2
              · exact digit_not_expChar hc0
              rcases List.mem_cons.mp hx2 with rfl | hx3
              · decide
              · exact digit_not_expChar (hrest x hx3)) 'E' (by decide),
          List.splitOnP_eq_single _ _ hexpall]
      rw [pyDecBody_eq_two hsplit, pyDecExp_sign_repr]
      show pyDecMant neg (c0 :: '.' :: rest) A = some ⟨neg, coeff, e⟩
      have hsp2 : (c0 :: '.' :: rest).splitOn '.' = [[c0], rest] := by
        rw [← List.singleton_append]
        exact splitOn_dot_append (by
          intro c hc
          rw [List.mem_singleton] at hc
          subst hc
          exact hc0) hrest
      rw [pyDecMant_eq_two hsp2, if_pos ⟨by simp, List.all_eq_true.mpr (by
          intro x hx
          simp only [List.singleton_append, List.mem_cons] at hx
          rcases hx with rfl | hx
          · exact hc0
          · exact hrest x hx)⟩]
      rw [show [c0] ++ rest = natRepr coeff by rw [hds]; rfl, digitsVal_natRepr]
      simp only [Option.some.injEq, Dec.mk.injEq]
      refine ⟨trivial, trivial, ?_⟩
      simp only [List.length_cons] at hA
      omega

/-- Round-trip: parsing the textual form of any decimal recovers it
exactly (value, sign, and stored precision). -/
theorem pyDec?_toSci (d : Dec) : pyDec? d.toSci = some d := by
  have hstrip : pyStrip d.toSci = d.toSci := pyStrip_eq_self toSci_not_space
  obtain ⟨c0, t0, hbody, hc0⟩ := sciBody_cons d
  have hsign : pySign d.toSci = (d.neg, d.sciBody) := by
    unfold Dec.toSci
    cases hn : d.neg
    · rw [if_neg (by simp), List.nil_append, hbody, pySign_digit hc0]
    · rw [if_pos rfl, List.singleton_append, pySign_neg_cons]
  simp only [pyDec?]
  rw [hstrip, hsign]
  show pyDecBody d.neg d.sciBody = some d
  rw [pyDecBody_sciBody]

/-! ### Constructor and record-parser lemmas -/

theorem init_ok {id_ : Int} {nome tipo : List Char} {q : Int} {p : Dec}
    (h1 : ¬id_ < 0) (h2 : (pyStrInt id_).length = 5) (h3 : nome ≠ [])
    (h4 : (PRODUCT_TYPES.lookup (pyUpper tipo)).isSome = true) (h5 : ¬q < 0)
    (h6 : p.ltZero = false) :
    Produto.init id_ nome tipo q p = .ok ⟨id_, nome, pyUpper tipo, q, p⟩ := by
  have h4' : (PRODUCT_TYPES.lookup (pyUpper tipo)).isNone = false := by
    cases ho : PRODUCT_TYPES.lookup (pyUpper tipo)
    · rw [ho] at h4
      cases h4
    · rfl
  unfold Produto.init
  rw [if_neg (by push_neg; exact ⟨not_lt.mp h1, h2⟩), if_neg h3,
    if_neg (by simp [h4']), if_neg h5, if_neg (by simp [h6])]

theorem init_inv {id_ : Int} {nome tipo : List Char} {q : Int} {p : Dec} {prod : Produto}
    (h : Produto.init id_ nome tipo q p = .ok prod) :
    ¬id_ < 0 ∧ (pyStrInt id_).length = 5 ∧ nome ≠ [] ∧
      (PRODUCT_TYPES.lookup (pyUpper tipo)).isSome = true ∧ ¬q < 0 ∧
      p.ltZero = false ∧ prod = ⟨id_, nome, pyUpper tipo, q, p⟩ := by
  unfold Produto.init at h
  split at h
  · exact absurd h (by simp)
  · next hcond =>
    push_neg at hcond
    split at h
    · exact absurd h (by simp)
    · next hnome =>
      split at h
      · exact absurd h (by simp)
      · next htipo =>
        split at h
        · exact absurd h (by simp)
        · next hq =>
          split at h
          · exact absurd h (by simp)
          · next hp =>
            refine ⟨not_lt.mpr hcond.1, hcond.2, hnome, ?_, hq, ?_, (Except.ok.inj h).symm⟩
            · cases ho : PRODUCT_TYPES.lookup (pyUpper tipo)
              · exact absurd (by rw [ho]; rfl) htipo
              · rfl
            · exact (Bool.not_eq_true _) ▸ hp

theorem lookup_PT_isSome {t : List Char}
    (h : (PRODUCT_TYPES.lookup t).isSome = true) :
    t = "AL".toList ∨ t = "DL".toList ∨ t = "FRL".toList := by
  by_cases h1 : t = ['A', 'L']
  · exact Or.inl (h1.trans rfl)
  by_cases h2 : t = ['D', 'L']
  · exact Or.inr (Or.inl (h2.trans rfl))
  by_cases h3 : t = ['F', 'R', 'L']
  · exact Or.inr (Or.inr (h3.trans rfl))
  rw [show PRODUCT_TYPES.lookup t = none by
    simp [PRODUCT_TYPES, List.lookup, beq_eq_false_iff_ne.mpr h1,
      beq_eq_false_iff_ne.mpr h2, beq_eq_false_iff_ne.mpr h3]] at h
  cases h

theorem from_csv_eq5 {txt a0 a1 a2 a3 a4 : List Char} {rest : List (List Char)}
    (h : txt.splitOn ',' = a0 :: a1 :: a2 :: a3 :: a4 :: rest) :
    Produto.from_csv txt =
      (pyIntE a0).bind (fun i => (pyIntE a3).bind (fun q => (pyDecE a4).bind
        (fun p => Produto.init i (pyStrip a1) (pyStrip a2) q p))) := by
  unfold Produto.from_csv
  rw [h]
  rfl

theorem from_csv_eq1 {txt a0 : List Char} (h : txt.splitOn ',' = [a0]) :
    Produto.from_csv txt = (pyIntE a0).bind (fun _ => .error .indexError) := by
  unfold Produto.from_csv
  rw [h]
  rfl

theorem from_csv_eq2 {txt a0 a1 : List Char} (h : txt.splitOn ',' = [a0, a1]) :
    Produto.from_csv txt = (pyIntE a0).bind (fun _ => .error .indexError) := by
  unfold Produto.from_csv
  rw [h]
  rfl

theorem from_csv_eq3 {txt a0 a1 a2 : List Char} (h : txt.splitOn ',' = [a0, a1, a2]) :
    Produto.from_csv txt = (pyIntE a0).bind (fun _ => .error .indexError) := by
  unfold Produto.from_csv
  rw [h]
  rfl

theorem from_csv_eq4 {txt a0 a1 a2 a3 : List Char}
    (h : txt.splitOn ',' = [a0, a1, a2, a3]) :
    Produto.from_csv txt =
      (pyIntE a0).bind (fun _ => (pyIntE a3).bind (fun _ => .error .indexError)) := by
  unfold Produto.from_csv
  rw [h]
  rfl

/-! ### Association-list (dict) lemmas -/

theorem lookup_cons_pair (k k' : Int) (v : Produto) (t : List (Int × Produto)) :
    List.lookup k ((k', v) :: t) = if k = k' then some v else List.lookup k t := by
  cases hbk : k == k'
  · have hk : ¬k = k' := by simpa using hbk
    simp only [List.lookup, hbk]
    rw [if_neg hk]
  · have hk : k = k' := by simpa using hbk
    simp only [List.lookup, hbk]
    rw [if_pos hk]

theorem lookup_eq_none_iff {k : Int} {l : List (Int × Produto)} :
    List.lookup k l = none ↔ ∀ e ∈ l, e.1 ≠ k := by
  induction l with
  | nil => simp [List.lookup]
  | cons e t ih =>
    obtain ⟨k', v⟩ := e
    rw [lookup_cons_pair]
    by_cases hk : k = k'
    · rw [if_pos hk]
      constructor
      · intro h
        cases h
      · intro h
        exact absurd hk.symm (h (k', v) (List.mem_cons_self _ _))
    · rw [if_neg hk, ih]
      constructor
      · intro h e he
        rcases List.mem_cons.mp he with rfl | he2
        · exact fun hh => hk hh.symm
        · exact h e he2
      · intro h e he
        exact h e (List.mem_cons_of_mem _ he)

theorem lookup_some_mem {k : Int} {v : Produto} {l : List (Int × Produto)}
    (h : List.lookup k l = some v) : (k, v) ∈ l := by
  induction l with
  | nil => cases h
  | cons e t ih =>
    obtain ⟨k', v'⟩ := e
    rw [lookup_cons_pair] at h
    split at h
    · next hk =>
      obtain rfl : v' = v := Option.some.inj h
      subst hk
      exact List.mem_cons_self _ _
    · exact List.mem_cons_of_mem _ (ih h)

theorem lookup_isSome_iff {k : Int} {l : List (Int × Produto)} :
    (List.lookup k l).isSome = true ↔ ∃ e ∈ l, e.1 = k := by
  cases ho : List.lookup k l
  · rw [lookup_eq_none_iff] at ho
    simp only [Option.isSome_none]
    constructor
    · intro h
      cases h
    · rintro ⟨e, he, hek⟩
      exact absurd hek (ho e he)
  · next v =>
    simp only [Option.isSome_some, true_iff]
    exact ⟨(k, v), lookup_some_mem ho, rfl⟩

theorem lookup_append_pair (k : Int) (l₁ l₂ : List (Int × Produto)) :
    List.lookup k (l₁ ++ l₂) =
      match List.lookup k l₁ with
      | some v => some v
      | none => List.lookup k l₂ := by
  induction l₁ with
  | nil => simp [List.lookup]
  | cons e t ih =>
    obtain ⟨k', v⟩ := e
    rw [List.cons_append, lookup_cons_pair, lookup_cons_pair]
    by_cases hk : k = k'
    · rw [if_pos hk, if_pos hk]
    · rw [if_neg hk, if_neg hk, ih]

/-! ### Collection operation lemmas -/

theorem except_ok_bind {σ α β : Type} (x : α) (f : α → Except σ β) :
    (Except.ok x >>= f) = f x := rfl

theorem except_pure_bind {σ α β : Type} (x : α) (f : α → Except σ β) :
    ((pure x : Except σ α) >>= f) = f x := rfl

namespace ProductCollection

theorem append_of_absent {pc : ProductCollection} {p : Produto}
    (h : pc.prods.lookup p.id = none) :
    pc.append p = .ok ⟨pc.prods ++ [(p.id, p)], pc.list⟩ := by
  unfold ProductCollection.append
  rw [h, if_neg (by simp)]
  unfold dictInsert
  rw [if_neg]
  simp only [List.any_eq_true, not_exists, not_and]
  intro e he
  exact fun hh => (lookup_eq_none_iff.mp h e he) (by simpa using hh)

theorem append_of_present {pc : ProductCollection} {p v : Produto}
    (h : pc.prods.lookup p.id = some v) :
    pc.append p = .error (.duplicateValue
      ("Já existe produto com id ".toList ++ pyStrInt p.id ++ " na colecção".toList)) := by
  unfold ProductCollection.append
  rw [h, if_pos (show (some v).isSome = true from rfl)]

theorem eliminar_of_present {pc : ProductCollection} {id_ : Int} {v : Produto}
    (h : pc.prods.lookup id_ = some v) :
    pc.eliminar id_ = .ok ⟨pc.prods.filter (fun e => e.1 ≠ id_), pc.list⟩ := by
  unfold ProductCollection.eliminar
  rw [h, if_pos (show (some v).isSome = true from rfl)]
  rfl

theorem eliminar_of_absent {pc : ProductCollection} {id_ : Int}
    (h : pc.prods.lookup id_ = none) :
    pc.eliminar id_ = .error (.fileNotFound
      ("O produto com id ".toList ++ pyStrInt id_ ++ " não existe na colecção".toList)) := by
  unfold ProductCollection.eliminar
  rw [h, if_neg (by simp)]

theorem foldl_strings (l : List (Int × Produto)) (acc : List Char) :
    l.foldl (fun a e => a ++ e.2.string ++ ['\n']) acc
      = acc ++ (l.map (fun e => e.2.string ++ ['\n'])).flatten := by
  induction l generalizing acc with
  | nil => simp
  | cons e t ih =>
    rw [List.foldl_cons, ih, List.map_cons, List.flatten_cons]
    simp [List.append_assoc]

theorem grava_eq (pc : ProductCollection) :
    pc.grava = (pc.list ++ (pc.prods.map (fun e => e.2.string ++ ['\n'])).flatten,
      ⟨pc.prods, pc.list ++ (pc.prods.map (fun e => e.2.string ++ ['\n'])).flatten⟩) := by
  unfold ProductCollection.grava
  rw [foldl_strings]

/-- The search fold, run from any accumulator whose keys avoid the ids
still to be scanned, appends exactly the matching members. -/
theorem pesquisa_go {crit : Produto → Bool} :
    ∀ (l : List (Int × Produto)) (acc : ProductCollection),
      (∀ e ∈ l, e.1 = e.2.id) →
      (l.map Prod.fst).Nodup →
      (∀ e ∈ l, acc.prods.lookup e.2.id = none) →
      l.foldlM (fun a e => if crit e.2 then a.append e.2 else pure a) acc
        = .ok ⟨acc.prods ++ l.filter (fun e => crit e.2), acc.list⟩ := by
  intro l
  induction l with
  | nil =>
    intro acc _ _ _
    rw [List.foldlM_nil, List.filter_nil, List.append_nil]
    obtain ⟨pr, li⟩ := acc
    rfl
  | cons e t ih =>
    intro acc hwk hnd hdisj
    rw [List.foldlM_cons]
    by_cases hc : crit e.2
    · rw [if_pos hc, append_of_absent (hdisj e (List.mem_cons_self _ _))]
      have hstep := ih ⟨acc.prods ++ [(e.2.id, e.2)], acc.list⟩
        (fun x hx => hwk x (List.mem_cons_of_mem _ hx))
        ((List.nodup_cons.mp (by simpa using hnd)).2)
        (by
          intro x hx
          rw [lookup_append_pair]
          rw [hdisj x (List.mem_cons_of_mem _ hx)]
          have hne : x.2.id ≠ e.2.id := by
            have h1 : e.1 ∉ t.map Prod.fst := (List.nodup_cons.mp (by simpa using hnd)).1
            have h2 : x.1 ∈ t.map Prod.fst := List.mem_map_of_mem _ hx
            rw [hwk x (List.mem_cons_of_mem _ hx)] at h2
            rw [hwk e (List.mem_cons_self _ _)] at h1
            intro hh
            rw [hh] at h2
            exact h1 h2
          rw [lookup_cons_pair, if_neg hne]
          rfl)
      rw [except_ok_bind, hstep, List.filter_cons_of_pos (by simpa using hc)]
      have hkey : (e.2.id, e.2) = e := by
        obtain ⟨k, v⟩ := e
        have hh := hwk (k, v) (List.mem_cons_self _ _)
        simp only at hh
        rw [show ((k, v) : Int × Produto).2 = v from rfl, ← hh]
      rw [List.append_assoc, List.singleton_append, hkey]
    · rw [if_neg hc, except_pure_bind]
      rw [ih acc (fun x hx => hwk x (List.mem_cons_of_mem _ hx))
        ((List.nodup_cons.mp (by simpa using hnd)).2)
        (fun x hx => hdisj x (List.mem_cons_of_mem _ hx))]
      rw [List.filter_cons_of_neg (by simpa using hc)]

theorem pesquisa_eq_filter {pc : ProductCollection} {crit : Produto → Bool}
    (hwk : ∀ e ∈ pc.prods, e.1 = e.2.id) (hnd : (pc.prods.map Prod.fst).Nodup) :
    pc.pesquisa crit = .ok ⟨pc.prods.filter (fun e => crit e.2), []⟩ := by
  unfold ProductCollection.pesquisa
  rw [pesquisa_go pc.prods ProductCollection.empty hwk hnd
    (fun e _ => rfl)]
  rfl

end ProductCollection

/-! ### The uniqueness invariant of reachable collections -/

theorem reachable_inv {pc : ProductCollection} (h : Reachable pc) :
    (∀ e ∈ pc.prods, e.1 = e.2.id) ∧ (pc.prods.map Prod.fst).Nodup := by
  induction h with
  | empty =>
    exact ⟨fun e he => absurd he (List.not_mem_nil e), by simp [ProductCollection.empty]⟩
  | @append pc pc' p hre hok ih =>
    cases hl : pc.prods.lookup p.id with
    | some v =>
      rw [ProductCollection.append_of_present hl] at hok
      cases hok
    | none =>
      rw [ProductCollection.append_of_absent hl] at hok
      obtain rfl : pc' = ⟨pc.prods ++ [(p.id, p)], pc.list⟩ := (Except.ok.inj hok).symm
      constructor
      · intro e he
        rcases List.mem_append.mp he with h1 | h2
        · exact ih.1 e h1
        · rw [List.mem_singleton] at h2
          subst h2
          rfl
      · rw [List.map_append]
        refine List.nodup_append.mpr ⟨ih.2, List.nodup_singleton _, ?_⟩
        intro a ha hb
        rw [List.map_singleton, List.mem_singleton] at hb
        subst hb
        obtain ⟨e, he, hek⟩ := List.mem_map.mp ha
        exact (lookup_eq_none_iff.mp hl) e he hek
  | @eliminar pc pc' id_ hre hok ih =>
    cases hl : pc.prods.lookup id_ with
    | none =>
      rw [ProductCollection.eliminar_of_absent hl] at hok
      cases hok
    | some v =>
      rw [ProductCollection.eliminar_of_present hl] at hok
      obtain rfl : pc' = ⟨pc.prods.filter (fun e => e.1 ≠ id_), pc.list⟩ :=
        (Except.ok.inj hok).symm
      exact ⟨fun e he => ih.1 e (List.mem_of_mem_filter he),
        ih.2.sublist ((List.filter_sublist _).map _)⟩
  | @pesquisa pc pc' crit hre hok ih =>
    rw [ProductCollection.pesquisa_eq_filter ih.1 ih.2] at hok
    obtain rfl : pc' = ⟨pc.prods.filter (fun e => crit e.2), []⟩ := (Except.ok.inj hok).symm
    exact ⟨fun e he => ih.1 e (List.mem_of_mem_filter he),
      ih.2.sublist ((List.filter_sublist _).map _)⟩

/-! ### Small step lemmas for the fallible conversions -/

theorem pyIntE_none {s : List Char} (h : pyInt? s = none) :
    pyIntE s = .error .valueError := by
  unfold pyIntE
  rw [h]

theorem pyIntE_some {s : List Char} {n : Int} (h : pyInt? s = some n) :
    pyIntE s = .ok n := by
  unfold pyIntE
  rw [h]

theorem pyDecE_none {s : List Char} (h : pyDec? s = none) :
    pyDecE s = .error .invalidOperation := by
  unfold pyDecE
  rw [h]

theorem pyDecE_some {s : List Char} {d : Dec} (h : pyDec? s = some d) :
    pyDecE s = .ok d := by
  unfold pyDecE
  rw [h]

theorem exceptBind_ok {σ α β : Type} (x : α) (f : α → Except σ β) :
    Except.bind (Except.ok x) f = f x := rfl

theorem exceptBind_err {σ α β : Type} (e : σ) (f : α → Except σ β) :
    Except.bind (Except.error e) f = Except.error e := rfl

theorem natRepr_not_comma {n : Nat} : ',' ∉ natRepr n := fun h =>
  absurd (natRepr_isDigit ',' h) (by decide)

/-! ### Claim theorems -/

/-- Claim C1, counterexample: the round-trip law fails as universally
stated.  The validated constructor accepts the name `" x"` (it is
non-empty), but parsing the serialized record trims the name, so the
parsed product differs from the original in the `nome` field. -/
theorem claim_C1_counterexample :
    Produto.init 40001 [' ', 'x'] ("FRL".toList) 1 ⟨false, 15, -1⟩
        = .ok ⟨40001, [' ', 'x'], "FRL".toList, 1, ⟨false, 15, -1⟩⟩
      ∧ Produto.from_csv
          (Produto.string ⟨40001, [' ', 'x'], "FRL".toList, 1, ⟨false, 15, -1⟩⟩)
        = .ok ⟨40001, ['x'], "FRL".toList, 1, ⟨false, 15, -1⟩⟩
      ∧ (['x'] : List Char) ≠ [' ', 'x'] :=
  ⟨by decide, by decide, by decide⟩

/-- Claim C1 (amended): for every product accepted by the validated
constructor whose name contains no comma and carries no surrounding
whitespace, parsing the serialized record succeeds and returns a
product equal to the original in every field (id, name, type code,
quantity and price — the price with its exact stored precision). -/
theorem claim_C1 {i : Int} {nome tipo : List Char} {q : Int} {d : Dec} {p : Produto}
    (hinit : Produto.init i nome tipo q d = .ok p)
    (hnc : ',' ∉ p.nome) (hns : pyStrip p.nome = p.nome) :
    Produto.from_csv p.string = .ok p := by
  obtain ⟨h1, h2, h3, h4, h5, h6, rfl⟩ := init_inv hinit
  dsimp only at hnc hns ⊢
  have hkey := lookup_PT_isSome h4
  have htipo : pyStrip (pyUpper tipo) = pyUpper tipo
      ∧ pyUpper (pyUpper tipo) = pyUpper tipo
      ∧ (',' ∉ pyUpper tipo) := by
    rcases hkey with h | h | h <;> rw [h] <;> exact ⟨by decide, by decide, by decide⟩
  have hsplit : (Produto.string ⟨i, nome, pyUpper tipo, q, d⟩).splitOn ','
      = [pyStrInt i, nome, pyUpper tipo, pyStrInt q, d.toSci] := by
    unfold Produto.string
    dsimp only
    refine List.splitOn_intercalate _ ',' ?_ (by simp)
    intro l hl
    have hint : ∀ j : Int, ¬j < 0 → ',' ∉ pyStrInt j := by
      intro j hj
      unfold pyStrInt
      rw [if_neg hj]
      exact natRepr_not_comma
    simp only [List.mem_cons, List.not_mem_nil, or_false] at hl
    rcases hl with rfl | rfl | rfl | rfl | rfl
    · exact hint i h1
    · exact hnc
    · exact htipo.2.2
    · exact hint q h5
    · exact toSci_not_comma
  rw [from_csv_eq5 hsplit,
    pyIntE_some (pyInt?_pyStrInt (not_lt.mp h1)), exceptBind_ok,
    pyIntE_some (pyInt?_pyStrInt (not_lt.mp h5)), exceptBind_ok,
    pyDecE_some (pyDec?_toSci d), exceptBind_ok, hns, htipo.1,
    init_ok h1 h2 h3 (by rw [htipo.2.1]; exact h4) h5 h6, htipo.2.1]

/-- Claim C1 witness: a concrete product with a plain name round-trips. -/
theorem claim_C1_witness :
    Produto.from_csv (Produto.string ⟨40001, ['x'], "FRL".toList, 1, ⟨false, 15, -1⟩⟩)
      = .ok ⟨40001, ['x'], "FRL".toList, 1, ⟨false, 15, -1⟩⟩ :=
  @claim_C1 40001 ['x'] ("FRL".toList) 1 ⟨false, 15, -1⟩
    ⟨40001, ['x'], "FRL".toList, 1, ⟨false, 15, -1⟩⟩
    (by decide) (by decide) (by decide)

/-- Claim C2: `grava` appends onto the persistent `self.list` buffer
instead of a fresh local, so only the first call (and any call on a
freshly constructed empty collection) returns exactly the concatenation
of the members' records; a second call returns the records twice.  The
theorem evaluates the code: the general buffer formula, the empty and
single-member first calls, and the duplicated second call at the
failing input. -/
theorem claim_C2 :
    (∀ pc : ProductCollection,
      pc.grava.1 = pc.list ++ (pc.prods.map (fun e => e.2.string ++ ['\n'])).flatten)
    ∧ (ProductCollection.grava ⟨[], []⟩).1 = []
    ∧ (ProductCollection.grava
        ⟨[(40001, ⟨40001, ['x'], "FRL".toList, 1, ⟨false, 15, -1⟩⟩)], []⟩).1
      = "40001,x,FRL,1,1.5\n".toList
    ∧ ((ProductCollection.grava
        ⟨[(40001, ⟨40001, ['x'], "FRL".toList, 1, ⟨false, 15, -1⟩⟩)], []⟩).2.grava).1
      = "40001,x,FRL,1,1.5\n40001,x,FRL,1,1.5\n".toList
    ∧ ("40001,x,FRL,1,1.5\n40001,x,FRL,1,1.5\n".toList : List Char)
      ≠ "40001,x,FRL,1,1.5\n".toList :=
  ⟨fun pc => by rw [ProductCollection.grava_eq], by decide, by decide, by decide, by decide⟩

/-- Claim C3: the validated constructor succeeds on every input with a
non-negative five-digit id (equivalently `10000 ≤ id ≤ 99999` — the
equivalence is part of the statement), non-empty name, known type code
up to case, and non-negative quantity and price; every stored attribute
equals the supplied value except the type code, which is uppercased. -/
theorem claim_C3 {id_ : Int} {nome tipo : List Char} {q : Int} {p : Dec}
    (hid : 0 ≤ id_ ∧ (pyStrInt id_).length = 5)
    (hnome : nome ≠ [])
    (htipo : (PRODUCT_TYPES.lookup (pyUpper tipo)).isSome = true)
    (hq : 0 ≤ q) (hp : ¬p.toRat < 0) :
    Produto.init id_ nome tipo q p = .ok ⟨id_, nome, pyUpper tipo, q, p⟩
      ∧ (10000 ≤ id_ ∧ id_ ≤ 99999)
      ∧ (∀ j : Int, (0 ≤ j ∧ (pyStrInt j).length = 5) ↔ (10000 ≤ j ∧ j ≤ 99999)) := by
  have hiff : ∀ j : Int, (0 ≤ j ∧ (pyStrInt j).length = 5) ↔ (10000 ≤ j ∧ j ≤ 99999) := by
    intro j
    constructor
    · rintro ⟨hj, hl⟩
      rw [pyStrInt, if_neg (not_lt.mpr hj)] at hl
      have hb := natRepr_length_eq_five.mp hl
      omega
    · rintro ⟨hj1, hj2⟩
      have hj : 0 ≤ j := by omega
      refine ⟨hj, ?_⟩
      rw [pyStrInt, if_neg (not_lt.mpr hj)]
      exact natRepr_length_eq_five.mpr (by omega)
  refine ⟨?_, (hiff id_).mp hid, hiff⟩
  exact init_ok (not_lt.mpr hid.1) hid.2 hnome htipo (not_lt.mpr hq)
    ((Bool.not_eq_true _) ▸ (fun hzz => hp ((Dec.ltZero_iff_toRat p).mp hzz)))

/-- Claim C3 witness: Scenario C — lowercase `"frl"` is accepted and
stored uppercased. -/
theorem claim_C3_witness :
    Produto.init 40001 ("morangos".toList) ("frl".toList) 100 ⟨false, 15, -1⟩
        = .ok ⟨40001, "morangos".toList, pyUpper ("frl".toList), 100, ⟨false, 15, -1⟩⟩
      ∧ (10000 ≤ (40001 : Int) ∧ (40001 : Int) ≤ 99999)
      ∧ (∀ j : Int, (0 ≤ j ∧ (pyStrInt j).length = 5) ↔ (10000 ≤ j ∧ j ≤ 99999)) :=
  @claim_C3 40001 ("morangos".toList) ("frl".toList) 100 ⟨false, 15, -1⟩
    ⟨by decide, by decide⟩ (by decide) (by decide) (by decide)
    (fun h => absurd ((Dec.ltZero_iff_toRat ⟨false, 15, -1⟩).mpr h) (by decide))

/-- Claim C4, counterexample: the constructor does not trim the name —
a name consisting of a single space trims to empty yet is accepted, so
the claim fails as stated for whitespace-only names. -/
theorem claim_C4_counterexample :
    pyStrip [' '] = []
      ∧ Produto.init 40001 [' '] ("FRL".toList) 1 ⟨false, 0, 0⟩
        = .ok ⟨40001, [' '], "FRL".toList, 1, ⟨false, 0, 0⟩⟩ :=
  ⟨by decide, by decide⟩

/-- Claim C4 (amended): the constructor rejects exactly the empty
string as a name, failing with the `InvalidProdAttribute` validation
error and producing no product; whitespace-only names reach it already
trimmed only via the CSV-parsing path, which strips the name field
before delegating. -/
theorem claim_C4 (id_ : Int) (tipo : List Char) (q : Int) (p : Dec) :
    (∃ msg, Produto.init id_ [] tipo q p = .error (.invalidProdAttribute msg))
      ∧ ∀ prod, Produto.init id_ [] tipo q p ≠ .ok prod := by
  unfold Produto.init
  split
  · exact ⟨⟨_, rfl⟩, fun prod hc => Except.noConfusion hc⟩
  · rw [if_pos rfl]
    exact ⟨⟨_, rfl⟩, fun prod hc => Except.noConfusion hc⟩

/-- Claim C4 witness: the empty name is rejected at a concrete input. -/
theorem claim_C4_witness :
    (∃ msg, Produto.init 40001 [] ("FRL".toList) 1 ⟨false, 0, 0⟩
        = .error (.invalidProdAttribute msg))
      ∧ ∀ prod, Produto.init 40001 [] ("FRL".toList) 1 ⟨false, 0, 0⟩ ≠ .ok prod :=
  claim_C4 40001 ("FRL".toList) 1 ⟨false, 0, 0⟩

/-- Claim C10: every constructed product stores a type code that is a
key of the fixed category table, so the derived category-name lookup
(`nome_tipo`) always succeeds. -/
theorem claim_C10 {id_ : Int} {nome tipo : List Char} {q : Int} {p : Dec}
    {prod : Produto} (h : Produto.init id_ nome tipo q p = .ok prod) :
    prod.nome_tipo.isSome = true := by
  obtain ⟨_, _, _, h4, _, _, rfl⟩ := init_inv h
  exact h4

/-- Claim C10 witness: the category name of a freshly constructed
product resolves. -/
theorem claim_C10_witness :
    (Produto.nome_tipo ⟨40001, ['x'], "FRL".toList, 1, ⟨false, 15, -1⟩⟩).isSome = true :=
  @claim_C10 40001 ['x'] ("frl".toList) 1 ⟨false, 15, -1⟩
    ⟨40001, ['x'], "FRL".toList, 1, ⟨false, 15, -1⟩⟩ (by decide)

/-- Claim C5, counterexample: a record with six comma-separated fields
is not rejected — the parser reads the first five fields and ignores
the rest, so "field count differs from exactly 5" does not imply
failure. -/
theorem claim_C5_counterexample :
    (("40001,x,FRL,1,2,extra".toList.splitOn ',').length = 6)
      ∧ Produto.from_csv ("40001,x,FRL,1,2,extra".toList)
        = .ok ⟨40001, ['x'], "FRL".toList, 1, ⟨false, 2, 0⟩⟩ :=
  ⟨by decide, by decide⟩

/-- Claim C5 (amended): a record whose comma-split field count is less
than five, or whose id, quantity or price field (among the first five)
is non-numeric, fails with a parsing-kind error — `IndexError` from
field access, `ValueError` from `int()`, or `decimal.InvalidOperation`
from `Decimal()` — never the validation error `InvalidProdAttribute`
(of which the builtin `ValueError` is the superclass, not a subtype);
records with more than five fields are accepted using the first five. -/
theorem claim_C5 {txt : List Char}
    (h : (txt.splitOn ',').length < 5
      ∨ (∃ a, (txt.splitOn ',').get? 0 = some a ∧ pyInt? a = none)
      ∨ (∃ a, (txt.splitOn ',').get? 3 = some a ∧ pyInt? a = none)
      ∨ (∃ a, (txt.splitOn ',').get? 4 = some a ∧ pyDec? a = none)) :
    ∃ e, Produto.from_csv txt = .error e ∧ e.isParseKind = true := by
  rcases hA : txt.splitOn ',' with _ | ⟨a0, _ | ⟨a1, _ | ⟨a2, _ | ⟨a3, _ | ⟨a4, rest⟩⟩⟩⟩⟩
  · exact absurd hA (by unfold List.splitOn; exact List.splitOnP_ne_nil _ txt)
  · rw [from_csv_eq1 hA]
    cases hi : pyInt? a0 with
    | none =>
      rw [pyIntE_none hi, exceptBind_err]
      exact ⟨.valueError, rfl, by decide⟩
    | some n =>
      rw [pyIntE_some hi, exceptBind_ok]
      exact ⟨.indexError, rfl, by decide⟩
  · rw [from_csv_eq2 hA]
    cases hi : pyInt? a0 with
    | none =>
      rw [pyIntE_none hi, exceptBind_err]
      exact ⟨.valueError, rfl, by decide⟩
    | some n =>
      rw [pyIntE_some hi, exceptBind_ok]
      exact ⟨.indexError, rfl, by decide⟩
  · rw [from_csv_eq3 hA]
    cases hi : pyInt? a0 with
    | none =>
      rw [pyIntE_none hi, exceptBind_err]
      exact ⟨.valueError, rfl, by decide⟩
    | some n =>
      rw [pyIntE_some hi, exceptBind_ok]
      exact ⟨.indexError, rfl, by decide⟩
  · rw [from_csv_eq4 hA]
    cases hi : pyInt? a0 with
    | none =>
      rw [pyIntE_none hi, exceptBind_err]
      exact ⟨.valueError, rfl, by decide⟩
    | some n =>
      rw [pyIntE_some hi, exceptBind_ok]
      cases hi3 : pyInt? a3 with
      | none =>
        rw [pyIntE_none hi3, exceptBind_err]
        exact ⟨.valueError, rfl, by decide⟩
      | some n3 =>
        rw [pyIntE_some hi3, exceptBind_ok]
        exact ⟨.indexError, rfl, by decide⟩
  · cases hi0 : pyInt? a0 with
    | none =>
      rw [from_csv_eq5 hA, pyIntE_none hi0, exceptBind_err]
      exact ⟨.valueError, rfl, by decide⟩
    | some i =>
      cases hi3 : pyInt? a3 with
      | none =>
        rw [from_csv_eq5 hA, pyIntE_some hi0, exceptBind_ok, pyIntE_none hi3,
          exceptBind_err]
        exact ⟨.valueError, rfl, by decide⟩
      | some n3 =>
        cases hd4 : pyDec? a4 with
        | none =>
          rw [from_csv_eq5 hA, pyIntE_some hi0, exceptBind_ok, pyIntE_some hi3,
            exceptBind_ok, pyDecE_none hd4, exceptBind_err]
          exact ⟨.invalidOperation, rfl, by decide⟩
        | some d4 =>
          exfalso
          rcases h with hl | ⟨a, ha, hpa⟩ | ⟨a, ha, hpa⟩ | ⟨a, ha, hpa⟩
          · rw [hA] at hl
            simp only [List.length_cons] at hl
            omega
          · obtain rfl : a = a0 := by rw [hA] at ha; simpa using ha.symm
            rw [hi0] at hpa
            cases hpa
          · obtain rfl : a = a3 := by rw [hA] at ha; simpa using ha.symm
            rw [hi3] at hpa
            cases hpa
          · obtain rfl : a = a4 := by rw [hA] at ha; simpa using ha.symm
            rw [hd4] at hpa
            cases hpa

/-- Claim C5 witness: a one-field record with a non-numeric id fails
with a parsing-kind error. -/
theorem claim_C5_witness :
    ∃ e, Produto.from_csv ("abc".toList) = .error e ∧ e.isParseKind = true :=
  @claim_C5 ("abc".toList) (Or.inr (Or.inl ⟨"abc".toList, by decide, by decide⟩))

/-- Claim C6: adding a product whose id is already a stored key fails
with `DuplicateValue` and the stored member is still returned unchanged
by the id lookup.  (The embedding is state-passing: an `append` that
returns an error produces no new collection value at all, so the
collection is exactly as before the call.) -/
theorem claim_C6 {pc : ProductCollection} {p1 p2 : Produto}
    (h : pc.prods.lookup p2.id = some p1) :
    pc.append p2 = .error (.duplicateValue
        ("Já existe produto com id ".toList ++ pyStrInt p2.id ++ " na colecção".toList))
      ∧ pc.pesquisa_por_id p2.id = some p1 :=
  ⟨ProductCollection.append_of_present h, h⟩

/-- Claim C6 witness: a duplicate id (with different other fields) is
rejected and the original member survives. -/
theorem claim_C6_witness :
    ProductCollection.append ⟨[(40001, ⟨40001, ['x'], "FRL".toList, 1, ⟨false, 15, -1⟩⟩)], []⟩
        ⟨40001, ['y'], "AL".toList, 2, ⟨false, 3, 0⟩⟩
      = .error (.duplicateValue ("Já existe produto com id ".toList
          ++ pyStrInt (Produto.id ⟨40001, ['y'], "AL".toList, 2, ⟨false, 3, 0⟩⟩)
          ++ " na colecção".toList))
      ∧ ProductCollection.pesquisa_por_id
          ⟨[(40001, ⟨40001, ['x'], "FRL".toList, 1, ⟨false, 15, -1⟩⟩)], []⟩
          (Produto.id ⟨40001, ['y'], "AL".toList, 2, ⟨false, 3, 0⟩⟩)
        = some ⟨40001, ['x'], "FRL".toList, 1, ⟨false, 15, -1⟩⟩ :=
  @claim_C6 ⟨[(40001, ⟨40001, ['x'], "FRL".toList, 1, ⟨false, 15, -1⟩⟩)], []⟩
    ⟨40001, ['x'], "FRL".toList, 1, ⟨false, 15, -1⟩⟩
    ⟨40001, ['y'], "AL".toList, 2, ⟨false, 3, 0⟩⟩ (by decide)

/-- Claim C7: deletion is keyed strictly by id.  Deleting a present id
succeeds and removes exactly the entries keyed by that id (so the
subsequent lookup is absent and a second delete of the same id fails
with the `FileNotFound` not-found error); deleting an absent id fails
with that error.  (The embedding is state-passing: a failed `eliminar`
produces no new collection value, so the collection is exactly as
before the call; the success case also leaves the `list` buffer
untouched, as stated.) -/
theorem claim_C7 (pc : ProductCollection) (id_ : Int) :
    (∀ v, pc.prods.lookup id_ = some v →
      pc.eliminar id_ = .ok ⟨pc.prods.filter (fun e => e.1 ≠ id_), pc.list⟩
        ∧ ProductCollection.pesquisa_por_id
            ⟨pc.prods.filter (fun e => e.1 ≠ id_), pc.list⟩ id_ = none
        ∧ ProductCollection.eliminar ⟨pc.prods.filter (fun e => e.1 ≠ id_), pc.list⟩ id_
          = .error (.fileNotFound ("O produto com id ".toList ++ pyStrInt id_
              ++ " não existe na colecção".toList)))
      ∧ (pc.prods.lookup id_ = none →
        pc.eliminar id_ = .error (.fileNotFound ("O produto com id ".toList
          ++ pyStrInt id_ ++ " não existe na colecção".toList))) := by
  have hnone : List.lookup id_ (pc.prods.filter (fun e => e.1 ≠ id_)) = none := by
    rw [lookup_eq_none_iff]
    intro e he
    simpa using List.of_mem_filter he
  exact ⟨fun v hv => ⟨ProductCollection.eliminar_of_present hv, hnone,
      ProductCollection.eliminar_of_absent hnone⟩,
    fun h => ProductCollection.eliminar_of_absent h⟩

/-- Claim C7 witness: deleting the only member empties the collection;
deleting from the empty collection fails with the not-found error. -/
theorem claim_C7_witness :
    ProductCollection.eliminar
        ⟨[(40001, ⟨40001, ['x'], "FRL".toList, 1, ⟨false, 15, -1⟩⟩)], []⟩ 40001
      = .ok ⟨[], []⟩
    ∧ ProductCollection.eliminar ⟨[], []⟩ 40001
      = .error (.fileNotFound ("O produto com id ".toList ++ pyStrInt 40001
          ++ " não existe na colecção".toList)) := by
  refine ⟨?_, (claim_C7 ⟨[], []⟩ 40001).2 (by decide)⟩
  rw [((claim_C7 ⟨[(40001, ⟨40001, ['x'], "FRL".toList, 1, ⟨false, 15, -1⟩⟩)], []⟩
    40001).1 ⟨40001, ['x'], "FRL".toList, 1, ⟨false, 15, -1⟩⟩ (by decide)).1]
  decide

/-- Claim C8: on any collection satisfying the dict invariants (keys
are the member ids and are pairwise distinct — true of every reachable
collection), `pesquisa` returns a fresh collection holding exactly the
members satisfying the predicate, each still keyed under its original
id, with an empty serialization buffer.  (The embedding is
state-passing: `pesquisa` returns a new value and cannot mutate its
argument, matching "does not mutate the source collection".) -/
theorem claim_C8 {pc : ProductCollection} {crit : Produto → Bool}
    (hwk : ∀ e ∈ pc.prods, e.1 = e.2.id) (hnd : (pc.prods.map Prod.fst).Nodup) :
    pc.pesquisa crit = .ok ⟨pc.prods.filter (fun e => crit e.2), []⟩
      ∧ ∀ e ∈ pc.prods.filter (fun e => crit e.2), e.1 = e.2.id :=
  ⟨ProductCollection.pesquisa_eq_filter hwk hnd,
    fun e he => hwk e (List.mem_of_mem_filter he)⟩

/-- Claim C8 witness: searching a two-member collection by a quantity
predicate returns exactly the matching member under its own id. -/
theorem claim_C8_witness :
    ProductCollection.pesquisa
        ⟨[(40001, ⟨40001, ['x'], "FRL".toList, 1, ⟨false, 15, -1⟩⟩),
          (40002, ⟨40002, ['y'], "AL".toList, 2, ⟨false, 3, 0⟩⟩)], []⟩
        (fun p => p.quantidade == 1)
      = .ok ⟨[(40001, ⟨40001, ['x'], "FRL".toList, 1, ⟨false, 15, -1⟩⟩)], []⟩ := by
  rw [(@claim_C8
    ⟨[(40001, ⟨40001, ['x'], "FRL".toList, 1, ⟨false, 15, -1⟩⟩),
      (40002, ⟨40002, ['y'], "AL".toList, 2, ⟨false, 3, 0⟩⟩)], []⟩
    (fun p => p.quantidade == 1) (by decide) (by decide)).1]
  decide

/-- Claim C9: in every collection reachable through the public
operations (empty construction and the success paths of add, delete
and search), the stored members have pairwise-distinct ids and each is
keyed under its own id. -/
theorem claim_C9 {pc : ProductCollection} (h : Reachable pc) :
    (pc.prods.map (fun e => e.2.id)).Nodup ∧ ∀ e ∈ pc.prods, e.1 = e.2.id := by
  obtain ⟨hwk, hnd⟩ := reachable_inv h
  refine ⟨?_, hwk⟩
  rw [List.map_congr_left (fun e he => (hwk e he).symm : ∀ e ∈ pc.prods, e.2.id = e.1)]
  exact hnd

/-- Claim C9 witness: a collection reached by two successful adds has
distinct member ids. -/
theorem claim_C9_witness :
    ((⟨[(40001, ⟨40001, ['x'], "FRL".toList, 1, ⟨false, 15, -1⟩⟩),
        (40002, ⟨40002, ['y'], "AL".toList, 2, ⟨false, 3, 0⟩⟩)], []⟩ :
      ProductCollection).prods.map (fun e => e.2.id)).Nodup
    ∧ ∀ e ∈ (⟨[(40001, ⟨40001, ['x'], "FRL".toList, 1, ⟨false, 15, -1⟩⟩),
        (40002, ⟨40002, ['y'], "AL".toList, 2, ⟨false, 3, 0⟩⟩)], []⟩ :
      ProductCollection).prods, e.1 = e.2.id :=
  claim_C9 (Reachable.append
    (Reachable.append Reachable.empty
      (by decide : ProductCollection.append ProductCollection.empty
        ⟨40001, ['x'], "FRL".toList, 1, ⟨false, 15, -1⟩⟩
        = .ok ⟨[(40001, ⟨40001, ['x'], "FRL".toList, 1, ⟨false, 15, -1⟩⟩)], []⟩))
    (by decide : ProductCollection.append
        ⟨[(40001, ⟨40001, ['x'], "FRL".toList, 1, ⟨false, 15, -1⟩⟩)], []⟩
        ⟨40002, ['y'], "AL".toList, 2, ⟨false, 3, 0⟩⟩
      = .ok ⟨[(40001, ⟨40001, ['x'], "FRL".toList, 1, ⟨false, 15, -1⟩⟩),
          (40002, ⟨40002, ['y'], "AL".toList, 2, ⟨false, 3, 0⟩⟩)], []⟩))

end Gestao
